import Mathlib

/-!
Verification of the minimal dataflow pipeline execution engine specified for the
kedro-data-pipeline repository (node / pipeline / data catalog / sequential runner),
together with the concrete two-node tutorial scenario from
`src/scratchs/hello_world_example.ipynb`.

The engine itself lives in the external kedro library, not in this repository;
its behaviour is therefore modelled from the specification (sections 3, 4 and 7),
while the tutorial nodes, catalog and expected run output are translated from the
notebook.
-/

/-- Dataset values; the tutorial works exclusively with strings. -/
abbrev Value := String

/-! ## Data Catalog -/

/-- Modelled from the spec: the Data Catalog (section 4.3, missing from src/) is a
registry from dataset name to a handle that may hold a value (`some v`) or exist
but be unset (`none`), as a `MemoryDataSet` created with no seed value is. -/
structure Catalog where
  entries : List (String × Option Value)
deriving DecidableEq, Repr

/-- Modelled from the spec: raw lookup in the registry, distinguishing
"no such entry" (`none`) from "entry exists but unset" (`some none`). -/
def lookupEntry : List (String × Option Value) → String → Option (Option Value)
  | [], _ => none
  | (k, v) :: rest, name => if k = name then some v else lookupEntry rest name

/-- Modelled from the spec: writing a value, replacing the entry if present and
auto-creating a default in-memory entry otherwise (section 4.3, `set`). -/
def writeEntry : List (String × Option Value) → String → Value → List (String × Option Value)
  | [], name, v => [(name, some v)]
  | (k, w) :: rest, name, v =>
      if k = name then (k, some v) :: rest else (k, w) :: writeEntry rest name v

/-- Modelled from the spec: `get` returns the current stored value, failing
(returning `none`) both when no entry exists and when the entry is unset. -/
def Catalog.get (c : Catalog) (name : String) : Option Value :=
  match lookupEntry c.entries name with
  | some (some v) => some v
  | _ => none

/-- Modelled from the spec: `set` stores a value, auto-creating an in-memory
entry when none exists. -/
def Catalog.set (c : Catalog) (name : String) (v : Value) : Catalog :=
  ⟨writeEntry c.entries name v⟩

/-- Modelled from the spec: `exists(name)` reports whether a value is currently
loadable, without raising. -/
def Catalog.existsName (c : Catalog) (name : String) : Bool :=
  (c.get name).isSome

/-- Modelled from the spec: saving each produced output in turn (section 4.4 step 2). -/
def Catalog.setMany (c : Catalog) : List (String × Value) → Catalog
  | [] => c
  | (k, v) :: rest => (c.set k v).setMany rest

/-! ## Node -/

/-- Modelled from the spec: a Node (section 3, missing from src/) wraps a function
with ordered input names, ordered output names, an optional display name and tags.
The wrapped function consumes the gathered input values in order and either
returns the output values in order or raises (modelled as `Except.error`). -/
structure Node where
  func : List Value → Except String (List Value)
  inputs : List String
  outputs : List String
  name : Option String
  tags : List String

/-- Modelled from the spec: the notebook's `node(...)` factory accepts `None`,
a bare string, or a list of strings for `inputs` / `outputs`. -/
inductive NameSpec
  | null
  | one (name : String)
  | many (names : List String)

/-- Modelled from the spec: normalisation of a name specification to the ordered
name list stored on the Node (`None` declares zero names, a bare string one). -/
def NameSpec.toList : NameSpec → List String
  | .null => []
  | .one s => [s]
  | .many l => l

/-- Modelled from the spec: the `node` factory from the notebook's pipeline
definition surface (section 6), missing from src/. -/
def node (func : List Value → Except String (List Value))
    (inputs outputs : NameSpec) : Node :=
  ⟨func, inputs.toList, outputs.toList, Option.none, []⟩

/-- Modelled from the spec: a node invocation can fail because an input dataset
has no loadable value, because the wrapped function raises, or because the
returned value count mismatches the declared output names (`ArityError`). -/
inductive NodeError
  | inputMissing (name : String)
  | funcRaised (e : String)
  | arityMismatch
deriving DecidableEq, Repr

/-- Modelled from the spec: gathering the current value of each declared input
name from the catalog, failing on the first name with no loadable value. -/
def gatherInputs (c : Catalog) : List String → Except String (List Value)
  | [] => .ok []
  | n :: rest =>
      match c.get n with
      | none => .error n
      | some v => (gatherInputs c rest).map (fun vs => v :: vs)

/-- Modelled from the spec: distributing the wrapped function's outcome over the
declared output names, positionally, failing with an arity error on a count
mismatch, and surfacing an error raised by the function (section 4.1). -/
def distributeOutputs (n : Node) : Except String (List Value) →
    Except NodeError (List (String × Value))
  | .error e => .error (.funcRaised e)
  | .ok outs =>
      if outs.length = n.outputs.length then .ok (n.outputs.zip outs)
      else .error .arityMismatch

/-- Modelled from the spec: `invoke()` (section 4.1) pulls the declared inputs,
calls the wrapped function, and distributes the returned values positionally over
the declared output names. -/
def Node.invoke (n : Node) (c : Catalog) : Except NodeError (List (String × Value)) :=
  match gatherInputs c n.inputs with
  | .error nm => .error (.inputMissing nm)
  | .ok vs => distributeOutputs n (n.func vs)

/-! ## Dependency graph and pipeline construction -/

/-- Modelled from the spec: the induced dependency edge, node `m` to node `n`,
present when some output name of `m` equals some input name of `n` (section 4.2). -/
def NodeDep (m n : Node) : Prop :=
  ∃ o, o ∈ m.outputs ∧ o ∈ n.inputs

/-- Modelled from the spec: the dependency edge restricted to members of a given
node collection. -/
def depIn (ns : List Node) (m n : Node) : Prop :=
  m ∈ ns ∧ n ∈ ns ∧ NodeDep m n

/-- Modelled from the spec: acyclicity of the induced dependency graph — no node
reaches itself through one or more dependency edges. -/
def Acyclic (ns : List Node) : Prop :=
  ∀ n, ¬ Relation.TransGen (depIn ns) n n

/-- Modelled from the spec: a node is ready when no remaining node produces any
of its input names (no remaining unresolved dependency, section 4.2 step 4). -/
def isReady (remaining : List Node) (n : Node) : Bool :=
  remaining.all (fun m => m.outputs.all (fun o => !n.inputs.contains o))

/-- Modelled from the spec: scanning for the first ready node in original
insertion order (the stable tie-break of section 4.2 step 4); returns the chosen
node and the remaining nodes with their order preserved. -/
def pickReadyGo (full : List Node) (pre : List Node) :
    List Node → Option (Node × List Node)
  | [] => none
  | n :: rest =>
      if isReady full n then some (n, pre.reverse ++ rest)
      else pickReadyGo full (n :: pre) rest

/-- Modelled from the spec: one selection step of the topological ordering. -/
def pickReady (remaining : List Node) : Option (Node × List Node) :=
  pickReadyGo remaining [] remaining

/-- Modelled from the spec: fuelled Kahn-style ordering loop; `none` means no
ready node remained although nodes were left, i.e. a dependency cycle. -/
def topoGo : Nat → List Node → Option (List Node)
  | _, [] => some []
  | 0, _ :: _ => none
  | fuel + 1, remaining =>
      match pickReady remaining with
      | none => none
      | some (n, rest) => (topoGo fuel rest).map (fun order => n :: order)

/-- Modelled from the spec: the topological ordering of a node collection
(section 4.2 step 4), `none` exactly when the induced graph has a cycle. -/
def topoSort (ns : List Node) : Option (List Node) :=
  topoGo ns.length ns

/-- Modelled from the spec: detection of duplicate producers — two distinct
nodes declaring the same output name (section 4.2 step 2). -/
def hasDuplicateProducer : List Node → Bool
  | [] => false
  | n :: rest =>
      rest.any (fun m => n.outputs.any (fun o => m.outputs.contains o))
      || hasDuplicateProducer rest

/-- Modelled from the spec: the construction-time pipeline error taxonomy
(section 7): `AmbiguousOutputError` and `CyclicPipelineError`. -/
inductive PipelineError
  | ambiguousOutputError
  | cyclicPipelineError
deriving DecidableEq, Repr

/-- Modelled from the spec: a Pipeline (section 3, missing from src/) holds its
nodes in the dependency-resolved execution order computed at construction. -/
structure Pipeline where
  nodes : List Node

/-- Modelled from the spec: the `pipeline(...)` factory (section 4.2): duplicate
producers are rejected first, then cycles, then the topological order is kept. -/
def pipeline (pipe : List Node) : Except PipelineError Pipeline :=
  if hasDuplicateProducer pipe then .error .ambiguousOutputError
  else
    match topoSort pipe with
    | none => .error .cyclicPipelineError
    | some sorted => .ok ⟨sorted⟩

/-- Modelled from the spec: whether some node of the collection produces a name. -/
def producedBy (ns : List Node) (name : String) : Bool :=
  ns.any (fun n => n.outputs.contains name)

/-- Modelled from the spec: whether some node of the collection consumes a name. -/
def consumedBy (ns : List Node) (name : String) : Bool :=
  ns.any (fun n => n.inputs.contains name)

/-- Modelled from the spec: free inputs — names consumed but never produced
within the pipeline (section 4.2). -/
def freeInputs (ns : List Node) : List String :=
  ((ns.flatMap (fun n => n.inputs)).filter (fun i => !producedBy ns i)).dedup

/-- Modelled from the spec: free outputs — names produced but never consumed
within the pipeline (section 4.2). -/
def freeOutputs (ns : List Node) : List String :=
  ((ns.flatMap (fun n => n.outputs)).filter (fun o => !consumedBy ns o)).dedup

/-! ## Sequential Runner -/

/-- Modelled from the spec: the run-time error taxonomy (section 7):
`MissingInputError`, `DatasetNotFoundError`, the invoke-time arity failure, and
`PipelineExecutionError` wrapping the failing node's index and underlying error. -/
inductive RunError
  | missingInputError (name : String)
  | datasetNotFoundError (name : String)
  | arityError (idx : Nat)
  | pipelineExecutionError (idx : Nat) (underlying : String)
deriving DecidableEq, Repr

/-- Modelled from the spec: the terminal run states (section 4.4): `Succeeded`
carries the result mapping, `Failed` the surfaced error; both carry the catalog
as the run left it (partial state is preserved, never rolled back). -/
inductive RunOutcome
  | succeeded (result : List (String × Value)) (catalog : Catalog)
  | failed (err : RunError) (catalog : Catalog)
deriving DecidableEq, Repr

/-- Modelled from the spec: how a node-invocation failure surfaces at run level
(section 7): a catalog access failure is a `DatasetNotFoundError`, an error
raised inside the node's function is wrapped, with the node's index as its
identity, in a `PipelineExecutionError`. -/
def nodeErrorToRun (idx : Nat) : NodeError → RunError
  | .inputMissing nm => .datasetNotFoundError nm
  | .funcRaised e => .pipelineExecutionError idx e
  | .arityMismatch => .arityError idx

/-- Modelled from the spec: sequential node execution (section 4.4 steps 2 and 3):
each node in order is invoked and its outputs saved; a failing node stops the run
at once, surfacing the error and the catalog with all prior writes retained. -/
def runNodes (idx : Nat) (nodes : List Node) (c : Catalog) :
    Except (RunError × Catalog) Catalog :=
  match nodes with
  | [] => .ok c
  | n :: rest =>
      match n.invoke c with
      | .error err => .error (nodeErrorToRun idx err, c)
      | .ok outs => runNodes (idx + 1) rest (c.setMany outs)

/-- Modelled from the spec: pulling each free output from the catalog via `get`
to build the final result mapping (section 4.4 step 4). -/
def collectOutputs (c : Catalog) : List String → Except String (List (String × Value))
  | [] => .ok []
  | nm :: rest =>
      match c.get nm with
      | none => .error nm
      | some v => (collectOutputs c rest).map (fun res => (nm, v) :: res)

/-- Modelled from the spec: the stateless sequential runner (section 4.4, missing
from src/): validate that every free input is loadable (fail-fast with
`MissingInputError`, catalog untouched), execute the nodes in topological order,
and on completion return the mapping restricted to the free output names. -/
def SequentialRunner.run (p : Pipeline) (c : Catalog) : RunOutcome :=
  match (freeInputs p.nodes).find? (fun i => !c.existsName i) with
  | some nm => .failed (.missingInputError nm) c
  | none =>
      match runNodes 0 p.nodes c with
      | .error (e, c') => .failed e c'
      | .ok c' =>
          match collectOutputs c' (freeOutputs p.nodes) with
          | .error nm => .failed (.datasetNotFoundError nm) c'
          | .ok res => .succeeded res c'

/-! ## The tutorial scenario, translated from `hello_world_example.ipynb` -/

/-- Translated from the notebook: `greeting_func` takes no input and returns the
literal string "Hello". -/
def greeting_func : List Value → Except String (List Value) :=
  fun _ => .ok ["Hello"]

/-- Translated from the notebook: `introducing_func(greeting_words)` returns the
greeting concatenated with ", AIMedic!". -/
def introducing_func : List Value → Except String (List Value) :=
  fun args =>
    match args with
    | [greeting_words] => .ok [greeting_words ++ ", AIMedic!"]
    | _ => .error "TypeError"

/-- Translated from the notebook: `node(func=greeting_func, inputs=None,
outputs="greeting_words")`. -/
def greeting_node : Node :=
  node greeting_func NameSpec.null (NameSpec.one "greeting_words")

/-- Translated from the notebook: `node(func=introducing_func,
inputs="greeting_words", outputs="message")`. -/
def introducing_node : Node :=
  node introducing_func (NameSpec.one "greeting_words") (NameSpec.one "message")

/-- Translated from the notebook: the catalog registering an unseeded
`MemoryDataSet` under "greeting_words". -/
def data_catalog : Catalog :=
  ⟨[("greeting_words", Option.none)]⟩

/-- Test fixture: the tutorial catalog extended with an unrelated seeded entry. -/
def keep_catalog : Catalog :=
  ⟨[("greeting_words", Option.none), ("keep", some "42")]⟩

/-! ## Further definitions used by the verification -/

/-- Modelled from the spec: an execution order is topologically sorted when no
later node produces an input of an earlier one and no node depends on itself. -/
def TopoSorted (l : List Node) : Prop :=
  l.Pairwise (fun a b => ¬ NodeDep b a) ∧ ∀ n ∈ l, ¬ NodeDep n n

/-- Modelled from the spec: the observable result of a run — the result mapping
on success, the surfaced error on failure — with the catalog state stripped. -/
def runResult : RunOutcome → Except RunError (List (String × Value))
  | .succeeded res _ => .ok res
  | .failed e _ => .error e

/-- Test fixture: a node whose wrapped function always raises. -/
def crashing_node : Node :=
  node (fun _ => .error "boom") (NameSpec.one "greeting_words") (NameSpec.one "crash_out")

/-- Test fixture: a node downstream of the crashing node. -/
def after_crash_node : Node :=
  node (fun vs => .ok vs) (NameSpec.one "crash_out") (NameSpec.one "final")

/-- Test fixture (Scenario E): a node requiring the free input "z". -/
def need_z_node : Node :=
  node (fun vs => .ok vs) (NameSpec.one "z") (NameSpec.one "w")

/-- Test fixture: a node consuming its own output name, a one-node cycle. -/
def loop_node : Node :=
  node (fun vs => .ok vs) (NameSpec.one "a") (NameSpec.one "a")

/-- Test fixture (Scenario D): consumes "b", produces "a". -/
def node_x : Node :=
  node (fun vs => .ok vs) (NameSpec.one "b") (NameSpec.one "a")

/-- Test fixture (Scenario D): consumes "a", produces "b". -/
def node_y : Node :=
  node (fun vs => .ok vs) (NameSpec.one "a") (NameSpec.one "b")

/-- Test fixture (Scenario C): first producer of "a". -/
def dup_node_one : Node :=
  node (fun _ => .ok ["1"]) NameSpec.null (NameSpec.one "a")

/-- Test fixture (Scenario C): second producer of "a". -/
def dup_node_two : Node :=
  node (fun _ => .ok ["2"]) NameSpec.null (NameSpec.one "a")

/-! ## Catalog lemmas -/

theorem lookupEntry_write_same (es : List (String × Option Value)) (k : String) (v : Value) :
    lookupEntry (writeEntry es k v) k = some (some v) := by
  induction es with
  | nil => simp [writeEntry, lookupEntry]
  | cons e rest ih =>
      obtain ⟨k', w⟩ := e
      by_cases h : k' = k
      · simp [writeEntry, lookupEntry, h]
      · simp [writeEntry, lookupEntry, h, ih]

theorem lookupEntry_write_other (es : List (String × Option Value)) (k name : String)
    (v : Value) (h : k ≠ name) :
    lookupEntry (writeEntry es k v) name = lookupEntry es name := by
  induction es with
  | nil => simp [writeEntry, lookupEntry, h]
  | cons e rest ih =>
      obtain ⟨k', w⟩ := e
      by_cases hk : k' = k
      · subst hk
        simp [writeEntry, lookupEntry, h]
      · by_cases hn : k' = name
        · simp [writeEntry, lookupEntry, hk, hn, Ne.symm h]
        · simp [writeEntry, lookupEntry, hk, hn, ih]

theorem Catalog.get_set_same (c : Catalog) (k : String) (v : Value) :
    (c.set k v).get k = some v := by
  simp [Catalog.get, Catalog.set, lookupEntry_write_same]

theorem Catalog.get_set_other (c : Catalog) (k name : String) (v : Value) (h : k ≠ name) :
    (c.set k v).get name = c.get name := by
  simp [Catalog.get, Catalog.set, lookupEntry_write_other _ _ _ _ h]

theorem Catalog.get_setMany_not_mem (ws : List (String × Value)) (c : Catalog) (name : String)
    (h : name ∉ ws.map Prod.fst) :
    (c.setMany ws).get name = c.get name := by
  induction ws generalizing c with
  | nil => rfl
  | cons w rest ih =>
      obtain ⟨k, v⟩ := w
      simp only [List.map_cons, List.mem_cons, not_or] at h
      rw [Catalog.setMany, ih _ h.2, Catalog.get_set_other _ _ _ _ (fun hk => h.1 hk.symm)]

theorem Catalog.get_setMany_congr (ws : List (String × Value)) (c₁ c₂ : Catalog) (name : String)
    (h : name ∈ ws.map Prod.fst) :
    (c₁.setMany ws).get name = (c₂.setMany ws).get name := by
  induction ws generalizing c₁ c₂ with
  | nil => simp at h
  | cons w rest ih =>
      obtain ⟨k, v⟩ := w
      by_cases hr : name ∈ rest.map Prod.fst
      · exact ih _ _ hr
      · simp only [List.map_cons, List.mem_cons] at h
        have hk : k = name := by
          rcases h with h | h
          · exact h.symm
          · exact absurd h hr
        subst hk
        rw [Catalog.setMany, Catalog.setMany,
          Catalog.get_setMany_not_mem _ _ _ hr, Catalog.get_setMany_not_mem _ _ _ hr,
          Catalog.get_set_same, Catalog.get_set_same]

theorem Catalog.isSome_get_setMany_mem (ws : List (String × Value)) (c : Catalog) (name : String)
    (h : name ∈ ws.map Prod.fst) :
    ((c.setMany ws).get name).isSome = true := by
  induction ws generalizing c with
  | nil => simp at h
  | cons w rest ih =>
      obtain ⟨k, v⟩ := w
      by_cases hr : name ∈ rest.map Prod.fst
      · exact ih _ hr
      · simp only [List.map_cons, List.mem_cons] at h
        have hk : k = name := by
          rcases h with h | h
          · exact h.symm
          · exact absurd h hr
        subst hk
        rw [Catalog.setMany, Catalog.get_setMany_not_mem _ _ _ hr, Catalog.get_set_same]
        rfl

/-! ## Name-set lemmas -/

theorem nodeDep_iff_any (m n : Node) :
    NodeDep m n ↔ m.outputs.any (fun o => n.inputs.contains o) = true := by
  simp [NodeDep, List.any_eq_true]

theorem isReady_iff (full : List Node) (n : Node) :
    isReady full n = true ↔ ∀ m ∈ full, ¬ NodeDep m n := by
  simp [isReady, List.all_eq_true, NodeDep]

theorem producedBy_iff (ns : List Node) (name : String) :
    producedBy ns name = true ↔ ∃ n ∈ ns, name ∈ n.outputs := by
  simp [producedBy, List.any_eq_true]

theorem consumedBy_iff (ns : List Node) (name : String) :
    consumedBy ns name = true ↔ ∃ n ∈ ns, name ∈ n.inputs := by
  simp [consumedBy, List.any_eq_true]

theorem mem_freeInputs_iff (ns : List Node) (name : String) :
    name ∈ freeInputs ns ↔ consumedBy ns name = true ∧ producedBy ns name = false := by
  simp [freeInputs, List.mem_dedup, List.mem_filter, List.mem_flatMap, consumedBy_iff,
    Bool.not_eq_true']

theorem mem_freeOutputs_iff (ns : List Node) (name : String) :
    name ∈ freeOutputs ns ↔ producedBy ns name = true ∧ consumedBy ns name = false := by
  simp [freeOutputs, List.mem_dedup, List.mem_filter, List.mem_flatMap, producedBy_iff,
    Bool.not_eq_true']

/-! ## Topological ordering lemmas -/

theorem pickReadyGo_eq_some (full : List Node) :
    ∀ (l pre : List Node) (n : Node) (rest : List Node),
      pickReadyGo full pre l = some (n, rest) →
      isReady full n = true ∧ (n :: rest).Perm (pre.reverse ++ l) := by
  intro l
  induction l with
  | nil => intro pre n rest h; simp [pickReadyGo] at h
  | cons x xs ih =>
      intro pre n rest h
      by_cases hr : isReady full x
      · rw [pickReadyGo, if_pos hr] at h
        obtain ⟨rfl, rfl⟩ : x = n ∧ pre.reverse ++ xs = rest := by
          simpa using h
        exact ⟨hr, List.perm_middle.symm⟩
      · rw [pickReadyGo, if_neg hr] at h
        have := ih (x :: pre) n rest h
        rwa [List.reverse_cons, List.append_assoc, List.singleton_append] at this

theorem pickReady_eq_some {remaining : List Node} {n : Node} {rest : List Node}
    (h : pickReady remaining = some (n, rest)) :
    isReady remaining n = true ∧ (n :: rest).Perm remaining := by
  have := pickReadyGo_eq_some remaining remaining [] n rest h
  simpa using this

theorem pickReadyGo_eq_none (full : List Node) :
    ∀ (l pre : List Node), pickReadyGo full pre l = none →
      ∀ x ∈ l, isReady full x = false := by
  intro l
  induction l with
  | nil => intro pre _ x hx; simp at hx
  | cons y ys ih =>
      intro pre h x hx
      by_cases hr : isReady full y
      · rw [pickReadyGo, if_pos hr] at h
        exact absurd h (by simp)
      · rw [pickReadyGo, if_neg hr] at h
        rcases List.mem_cons.mp hx with rfl | hx'
        · exact Bool.eq_false_iff.mpr hr
        · exact ih (y :: pre) h x hx'

theorem pickReady_eq_none {remaining : List Node} (h : pickReady remaining = none) :
    ∀ x ∈ remaining, isReady remaining x = false :=
  pickReadyGo_eq_none remaining remaining [] h

theorem topoGo_succ_cons (fuel : Nat) (x : Node) (xs : List Node) :
    topoGo (fuel + 1) (x :: xs) =
      match pickReady (x :: xs) with
      | none => none
      | some (n, rest) => (topoGo fuel rest).map (fun order => n :: order) := rfl

theorem topoGo_perm (fuel : Nat) :
    ∀ (l ord : List Node), topoGo fuel l = some ord → ord.Perm l := by
  induction fuel with
  | zero =>
      intro l ord h
      cases l with
      | nil =>
          obtain rfl : ord = [] := by simpa [topoGo] using h.symm
          exact List.Perm.refl _
      | cons x xs => simp [topoGo] at h
  | succ fuel ih =>
      intro l ord h
      cases l with
      | nil =>
          obtain rfl : ord = [] := by simpa [topoGo] using h.symm
          exact List.Perm.refl _
      | cons x xs =>
          rw [topoGo_succ_cons] at h
          cases hp : pickReady (x :: xs) with
          | none => rw [hp] at h; cases h
          | some nr =>
              obtain ⟨n, rest⟩ := nr
              rw [hp] at h
              obtain ⟨ord', h1, h2⟩ := Option.map_eq_some'.mp h
              subst h2
              exact ((ih rest ord' h1).cons n).trans (pickReady_eq_some hp).2

theorem topoGo_sorted (fuel : Nat) :
    ∀ (l ord : List Node), topoGo fuel l = some ord → TopoSorted ord := by
  induction fuel with
  | zero =>
      intro l ord h
      cases l with
      | nil =>
          obtain rfl : ord = [] := by simpa [topoGo] using h.symm
          exact ⟨List.Pairwise.nil, by simp⟩
      | cons x xs => simp [topoGo] at h
  | succ fuel ih =>
      intro l ord h
      cases l with
      | nil =>
          obtain rfl : ord = [] := by simpa [topoGo] using h.symm
          exact ⟨List.Pairwise.nil, by simp⟩
      | cons x xs =>
          rw [topoGo_succ_cons] at h
          cases hp : pickReady (x :: xs) with
          | none => rw [hp] at h; cases h
          | some nr =>
              obtain ⟨n, rest⟩ := nr
              rw [hp] at h
              obtain ⟨ord', h1, h2⟩ := Option.map_eq_some'.mp h
              subst h2
              obtain ⟨hready, hperm⟩ := pickReady_eq_some hp
              obtain ⟨ihpw, ihself⟩ := ih rest ord' h1
              have hmem : ∀ b ∈ ord', b ∈ (x :: xs) := fun b hb =>
                hperm.mem_iff.mp (List.mem_cons_of_mem n ((topoGo_perm fuel rest ord' h1).mem_iff.mp hb))
              constructor
              · exact List.pairwise_cons.mpr
                  ⟨fun b hb => (isReady_iff _ _).mp hready b (hmem b hb), ihpw⟩
              · intro m hm
                rcases List.mem_cons.mp hm with rfl | hm'
                · exact (isReady_iff _ _).mp hready m
                    (hperm.mem_iff.mp (List.mem_cons_self _ _))
                · exact ihself m hm'

/-! ## Cycles and Kahn completeness -/

theorem exists_cycle_of_blocked {α : Type} (r : α → α → Prop) (S : List α) (hne : S ≠ [])
    (h : ∀ n ∈ S, ∃ m ∈ S, r m n) : ∃ n ∈ S, Relation.TransGen r n n := by
  classical
  choose! g hmem hr using h
  obtain ⟨n₀, hn₀⟩ : ∃ x, x ∈ S := List.exists_mem_of_ne_nil S hne
  have hiter : ∀ (a : α), a ∈ S → ∀ k, g^[k] a ∈ S := by
    intro a ha k
    induction k with
    | zero => simpa using ha
    | succ k ih => rw [Function.iterate_succ_apply']; exact hmem _ ih
  have hchain : ∀ (k : Nat) (a : α), a ∈ S → Relation.TransGen r (g^[k + 1] a) a := by
    intro k
    induction k with
    | zero =>
        intro a ha
        simpa using Relation.TransGen.single (hr a ha)
    | succ k ih =>
        intro a ha
        have h2 : r (g (g^[k + 1] a)) (g^[k + 1] a) := hr _ (hiter a ha (k + 1))
        rw [Function.iterate_succ_apply']
        exact Relation.TransGen.head h2 (ih a ha)
  obtain ⟨i, -, j, -, hij, hfij⟩ :=
    Finset.exists_ne_map_eq_of_card_lt_of_maps_to
      (s := (Finset.univ : Finset (Fin (S.length + 1)))) (t := S.toFinset)
      (by simpa using Nat.lt_succ_of_le (List.toFinset_card_le S))
      (f := fun k => g^[(k : Nat)] n₀)
      (fun k _ => List.mem_toFinset.mpr (hiter n₀ hn₀ k))
  have key : ∀ (a b : Fin (S.length + 1)), (a : Nat) < (b : Nat) →
      g^[(a : Nat)] n₀ = g^[(b : Nat)] n₀ → ∃ n ∈ S, Relation.TransGen r n n := by
    intro a b hab heq
    have hd : (b : Nat) = ((b : Nat) - (a : Nat) - 1) + 1 + (a : Nat) := by omega
    have hcyc : Relation.TransGen r (g^[(b : Nat)] n₀) (g^[(a : Nat)] n₀) := by
      rw [hd, Function.iterate_add_apply]
      exact hchain _ _ (hiter n₀ hn₀ (a : Nat))
    rw [heq] at hcyc
    exact ⟨g^[(b : Nat)] n₀, hiter n₀ hn₀ (b : Nat), hcyc⟩
  rcases Nat.lt_or_ge (i : Nat) (j : Nat) with hlt | hge
  · exact key i j hlt hfij
  · have hlt : (j : Nat) < (i : Nat) := by
      rcases Nat.lt_or_eq_of_le hge with hlt | heq
      · exact hlt
      · exact absurd (Fin.ext heq.symm) hij
    exact key j i hlt hfij.symm

theorem acyclic_of_rank (ns : List Node) (rank : Node → Nat)
    (h : ∀ m n, m ∈ ns → n ∈ ns → NodeDep m n → rank m < rank n) : Acyclic ns := by
  intro n hn
  have key : ∀ a b, Relation.TransGen (depIn ns) a b → rank a < rank b := by
    intro a b hab
    induction hab with
    | single e => exact h _ _ e.1 e.2.1 e.2.2
    | tail _ e ih => exact ih.trans (h _ _ e.1 e.2.1 e.2.2)
  exact absurd (key n n hn) (lt_irrefl _)

theorem topoGo_isSome (ns : List Node) (hacy : Acyclic ns) :
    ∀ (fuel : Nat) (l : List Node), l.length ≤ fuel → (∀ x ∈ l, x ∈ ns) →
      (topoGo fuel l).isSome = true := by
  intro fuel
  induction fuel with
  | zero =>
      intro l hlen hsub
      cases l with
      | nil => simp [topoGo]
      | cons x xs => simp at hlen
  | succ fuel ih =>
      intro l hlen hsub
      cases l with
      | nil => simp [topoGo]
      | cons x xs =>
          cases hp : pickReady (x :: xs) with
          | none =>
              exfalso
              have hblocked : ∀ a ∈ (x :: xs), ∃ m ∈ (x :: xs), depIn ns m a := by
                intro a ha
                have hnr : ¬ ∀ m ∈ (x :: xs), ¬ NodeDep m a := by
                  rw [← isReady_iff]
                  simp [pickReady_eq_none hp a ha]
                push_neg at hnr
                obtain ⟨m, hm, hdep⟩ := hnr
                exact ⟨m, hm, hsub m hm, hsub a ha, hdep⟩
              obtain ⟨a, _, hcyc⟩ :=
                exists_cycle_of_blocked (depIn ns) (x :: xs) (by simp) hblocked
              exact hacy a hcyc
          | some nr =>
              obtain ⟨n, rest⟩ := nr
              have hperm := (pickReady_eq_some hp).2
              have hlen' : rest.length ≤ fuel := by
                have hl := hperm.length_eq
                simp at hl hlen
                omega
              have hsub' : ∀ y ∈ rest, y ∈ ns := fun y hy =>
                hsub y (hperm.mem_iff.mp (List.mem_cons_of_mem n hy))
              obtain ⟨ord, hord⟩ := Option.isSome_iff_exists.mp (ih rest hlen' hsub')
              rw [topoGo_succ_cons, hp]
              simp [hord]

theorem topoSort_isSome_of_acyclic (ns : List Node) (hacy : Acyclic ns) :
    (topoSort ns).isSome = true :=
  topoGo_isSome ns hacy ns.length ns le_rfl (fun _ hx => hx)

theorem acyclic_of_topoSorted : ∀ l : List Node, TopoSorted l → Acyclic l := by
  intro l
  induction l with
  | nil =>
      intro _ n hn
      cases hn with
      | single e => exact absurd e.1 (List.not_mem_nil _)
      | tail _ e => exact absurd e.1 (List.not_mem_nil _)
  | cons x xs ih =>
      rintro ⟨hpw, hself⟩ n hn
      have hnoIn : ∀ m, ¬ depIn (x :: xs) m x := by
        rintro m ⟨hm, _, hdep⟩
        rcases List.mem_cons.mp hm with rfl | hm'
        · exact hself m (List.mem_cons_self _ _) hdep
        · exact (List.pairwise_cons.mp hpw).1 m hm' hdep
      have hnx : n ≠ x := by
        rintro rfl
        cases hn with
        | single e => exact hnoIn _ e
        | tail _ e => exact hnoIn _ e
      have hres : ∀ y, Relation.TransGen (depIn (x :: xs)) n y →
          Relation.TransGen (depIn xs) n y ∧ y ≠ x := by
        intro y hy
        induction hy with
        | @single b e =>
            have hyne : b ≠ x := by
              rintro rfl
              exact hnoIn n e
            refine ⟨Relation.TransGen.single ?_, hyne⟩
            obtain ⟨h1, h2, h3⟩ := e
            exact ⟨(List.mem_cons.mp h1).resolve_left hnx, (List.mem_cons.mp h2).resolve_left hyne, h3⟩
        | @tail b c _ e ihy =>
            obtain ⟨ht, hbne⟩ := ihy
            have hyne : c ≠ x := by
              rintro rfl
              exact hnoIn b e
            refine ⟨ht.tail ?_, hyne⟩
            obtain ⟨h1, h2, h3⟩ := e
            exact ⟨(List.mem_cons.mp h1).resolve_left hbne, (List.mem_cons.mp h2).resolve_left hyne, h3⟩
      exact ih ⟨(List.pairwise_cons.mp hpw).2, fun m hm => hself m (List.mem_cons_of_mem _ hm)⟩
        n (hres n hn).1

theorem acyclic_of_perm {l₁ l₂ : List Node} (hp : l₁.Perm l₂) (h : Acyclic l₁) : Acyclic l₂ := by
  intro n hn
  refine h n (Relation.TransGen.mono ?_ hn)
  rintro a b ⟨ha, hb, hd⟩
  exact ⟨hp.mem_iff.mpr ha, hp.mem_iff.mpr hb, hd⟩

theorem acyclic_of_topoSort_eq_some {ns ord : List Node} (h : topoSort ns = some ord) :
    Acyclic ns :=
  acyclic_of_perm (topoGo_perm _ _ _ h) (acyclic_of_topoSorted ord (topoGo_sorted _ _ _ h))

/-! ## Runner lemmas -/

theorem runNodes_nil (i : Nat) (c : Catalog) : runNodes i [] c = .ok c := rfl

theorem runNodes_cons (i : Nat) (n : Node) (rest : List Node) (c : Catalog) :
    runNodes i (n :: rest) c =
      match n.invoke c with
      | .error err => .error (nodeErrorToRun i err, c)
      | .ok outs => runNodes (i + 1) rest (c.setMany outs) := rfl

theorem runNodes_cons_error {n : Node} {c : Catalog} {err : NodeError}
    (i : Nat) (rest : List Node) (hi : n.invoke c = .error err) :
    runNodes i (n :: rest) c = .error (nodeErrorToRun i err, c) := by
  rw [runNodes_cons, hi]

theorem runNodes_cons_ok {n : Node} {c : Catalog} {outs : List (String × Value)}
    (i : Nat) (rest : List Node) (hi : n.invoke c = .ok outs) :
    runNodes i (n :: rest) c = runNodes (i + 1) rest (c.setMany outs) := by
  rw [runNodes_cons, hi]

theorem producedBy_cons (n : Node) (rest : List Node) (name : String) :
    producedBy (n :: rest) name = (n.outputs.contains name || producedBy rest name) := rfl

theorem consumedBy_cons (n : Node) (rest : List Node) (name : String) :
    consumedBy (n :: rest) name = (n.inputs.contains name || consumedBy rest name) := rfl

theorem runNodes_append_ok (post : List Node) :
    ∀ (pre : List Node) (i : Nat) (c c₁ : Catalog), runNodes i pre c = .ok c₁ →
      runNodes i (pre ++ post) c = runNodes (i + pre.length) post c₁ := by
  intro pre
  induction pre with
  | nil =>
      intro i c c₁ h
      obtain rfl : c = c₁ := by simpa [runNodes_nil] using h
      simp
  | cons n rest ih =>
      intro i c c₁ h
      cases hi : n.invoke c with
      | error err => rw [runNodes_cons_error i rest hi] at h; cases h
      | ok outs =>
          rw [runNodes_cons_ok i rest hi] at h
          rw [List.cons_append, runNodes_cons_ok i (rest ++ post) hi,
            ih (i + 1) (c.setMany outs) c₁ h]
          have heq : i + 1 + rest.length = i + (n :: rest).length := by
            simp [List.length_cons]
            omega
          rw [heq]

theorem runNodes_append_error (post : List Node) :
    ∀ (pre : List Node) (i : Nat) (c : Catalog) (e : RunError × Catalog),
      runNodes i pre c = .error e →
      runNodes i (pre ++ post) c = .error e := by
  intro pre
  induction pre with
  | nil => intro i c e h; cases h
  | cons n rest ih =>
      intro i c e h
      cases hi : n.invoke c with
      | error err =>
          rw [runNodes_cons_error i rest hi] at h
          rw [List.cons_append, runNodes_cons_error i (rest ++ post) hi]
          exact h
      | ok outs =>
          rw [runNodes_cons_ok i rest hi] at h
          rw [List.cons_append, runNodes_cons_ok i (rest ++ post) hi]
          exact ih (i + 1) (c.setMany outs) e h

theorem collectOutputs_cons (c : Catalog) (nm : String) (rest : List String) :
    collectOutputs c (nm :: rest) =
      match c.get nm with
      | none => .error nm
      | some v => (collectOutputs c rest).map (fun res => (nm, v) :: res) := rfl

theorem collectOutputs_ok_keys (c : Catalog) :
    ∀ (names : List String) (res : List (String × Value)),
      collectOutputs c names = .ok res → res.map Prod.fst = names := by
  intro names
  induction names with
  | nil =>
      intro res h
      obtain rfl : res = [] := by simpa [collectOutputs] using h.symm
      rfl
  | cons nm rest ih =>
      intro res h
      rw [collectOutputs_cons] at h
      cases hg : c.get nm with
      | none => rw [hg] at h; cases h
      | some v =>
          rw [hg] at h
          cases hc : collectOutputs c rest with
          | error e => rw [hc] at h; cases h
          | ok res' =>
              rw [hc] at h
              obtain rfl : (nm, v) :: res' = res := by simpa [Except.map] using h
              simp [ih res' hc]

theorem invoke_gather_error {n : Node} {c : Catalog} {nm : String}
    (hg : gatherInputs c n.inputs = .error nm) :
    n.invoke c = .error (.inputMissing nm) := by
  unfold Node.invoke
  rw [hg]

theorem invoke_gather_ok {n : Node} {c : Catalog} {vs : List Value}
    (hg : gatherInputs c n.inputs = .ok vs) :
    n.invoke c = distributeOutputs n (n.func vs) := by
  unfold Node.invoke
  rw [hg]

theorem invoke_ok_keys (n : Node) (c : Catalog) (outs : List (String × Value))
    (h : n.invoke c = .ok outs) : outs.map Prod.fst = n.outputs := by
  cases hg : gatherInputs c n.inputs with
  | error nm => rw [invoke_gather_error hg] at h; cases h
  | ok vs =>
      rw [invoke_gather_ok hg] at h
      cases hf : n.func vs with
      | error e => rw [hf] at h; cases h
      | ok rets =>
          rw [hf] at h
          have h2 : (if rets.length = n.outputs.length then
              Except.ok (n.outputs.zip rets) else Except.error NodeError.arityMismatch) =
              Except.ok outs := h
          by_cases hlen : rets.length = n.outputs.length
          · rw [if_pos hlen] at h2
            obtain rfl : n.outputs.zip rets = outs := by simpa using h2
            exact List.map_fst_zip n.outputs rets (le_of_eq hlen.symm)
          · rw [if_neg hlen] at h2; cases h2

theorem gatherInputs_congr (c₁ c₂ : Catalog) :
    ∀ names : List String, (∀ nm ∈ names, c₁.get nm = c₂.get nm) →
      gatherInputs c₁ names = gatherInputs c₂ names := by
  intro names
  induction names with
  | nil => intro _; rfl
  | cons nm rest ih =>
      intro h
      have hhd := h nm (List.mem_cons_self nm rest)
      have htl := ih (fun x hx => h x (List.mem_cons_of_mem _ hx))
      show (match c₁.get nm with
        | none => Except.error nm
        | some v => (gatherInputs c₁ rest).map (fun vs => v :: vs)) =
        (match c₂.get nm with
        | none => Except.error nm
        | some v => (gatherInputs c₂ rest).map (fun vs => v :: vs))
      rw [hhd, htl]

theorem invoke_congr (n : Node) (c₁ c₂ : Catalog)
    (h : ∀ nm ∈ n.inputs, c₁.get nm = c₂.get nm) : n.invoke c₁ = n.invoke c₂ := by
  unfold Node.invoke
  rw [gatherInputs_congr c₁ c₂ n.inputs h]

theorem collectOutputs_congr (c₁ c₂ : Catalog) :
    ∀ names : List String, (∀ nm ∈ names, c₁.get nm = c₂.get nm) →
      collectOutputs c₁ names = collectOutputs c₂ names := by
  intro names
  induction names with
  | nil => intro _; rfl
  | cons nm rest ih =>
      intro h
      have hhd := h nm (List.mem_cons_self nm rest)
      have htl := ih (fun x hx => h x (List.mem_cons_of_mem _ hx))
      rw [collectOutputs_cons, collectOutputs_cons, hhd, htl]

theorem find?_congr_pred {α : Type} (l : List α) (p q : α → Bool)
    (h : ∀ x ∈ l, p x = q x) : l.find? p = l.find? q := by
  induction l with
  | nil => rfl
  | cons a rest ih =>
      have ha := h a (List.mem_cons_self a rest)
      have htl := ih (fun x hx => h x (List.mem_cons_of_mem _ hx))
      cases hpa : p a with
      | false =>
          rw [List.find?_cons_of_neg _ (by rw [hpa]; exact Bool.false_ne_true),
            List.find?_cons_of_neg _ (by rw [← ha, hpa]; exact Bool.false_ne_true), htl]
      | true =>
          rw [List.find?_cons_of_pos _ hpa, List.find?_cons_of_pos _ (by rw [← ha, hpa])]

theorem run_validation_failed {p : Pipeline} {c : Catalog} {nm : String}
    (hv : (freeInputs p.nodes).find? (fun i => !c.existsName i) = some nm) :
    SequentialRunner.run p c = .failed (.missingInputError nm) c := by
  unfold SequentialRunner.run
  rw [hv]

theorem run_validation_ok {p : Pipeline} {c : Catalog}
    (hv : (freeInputs p.nodes).find? (fun i => !c.existsName i) = none) :
    SequentialRunner.run p c =
      match runNodes 0 p.nodes c with
      | .error (e, c') => .failed e c'
      | .ok c' =>
          match collectOutputs c' (freeOutputs p.nodes) with
          | .error nm => .failed (.datasetNotFoundError nm) c'
          | .ok res => .succeeded res c' := by
  unfold SequentialRunner.run
  rw [hv]

theorem run_nodes_error {p : Pipeline} {c : Catalog} {e : RunError} {c₁ : Catalog}
    (hv : (freeInputs p.nodes).find? (fun i => !c.existsName i) = none)
    (hr : runNodes 0 p.nodes c = .error (e, c₁)) :
    SequentialRunner.run p c = .failed e c₁ := by
  rw [run_validation_ok hv, hr]

theorem run_nodes_ok_collect_error {p : Pipeline} {c c₁ : Catalog} {nm : String}
    (hv : (freeInputs p.nodes).find? (fun i => !c.existsName i) = none)
    (hr : runNodes 0 p.nodes c = .ok c₁)
    (hc : collectOutputs c₁ (freeOutputs p.nodes) = .error nm) :
    SequentialRunner.run p c = .failed (.datasetNotFoundError nm) c₁ := by
  rw [run_validation_ok hv, hr]
  show (match collectOutputs c₁ (freeOutputs p.nodes) with
    | Except.error nm => RunOutcome.failed (RunError.datasetNotFoundError nm) c₁
    | Except.ok res => RunOutcome.succeeded res c₁) = _
  rw [hc]

theorem run_nodes_ok_collect_ok {p : Pipeline} {c c₁ : Catalog} {res : List (String × Value)}
    (hv : (freeInputs p.nodes).find? (fun i => !c.existsName i) = none)
    (hr : runNodes 0 p.nodes c = .ok c₁)
    (hc : collectOutputs c₁ (freeOutputs p.nodes) = .ok res) :
    SequentialRunner.run p c = .succeeded res c₁ := by
  rw [run_validation_ok hv, hr]
  show (match collectOutputs c₁ (freeOutputs p.nodes) with
    | Except.error nm => RunOutcome.failed (RunError.datasetNotFoundError nm) c₁
    | Except.ok res => RunOutcome.succeeded res c₁) = _
  rw [hc]

theorem run_succeeded_inv {p : Pipeline} {c : Catalog} {res : List (String × Value)}
    {c' : Catalog} (h : SequentialRunner.run p c = .succeeded res c') :
    runNodes 0 p.nodes c = .ok c' ∧ collectOutputs c' (freeOutputs p.nodes) = .ok res := by
  cases hv : (freeInputs p.nodes).find? (fun i => !c.existsName i) with
  | some nm => rw [run_validation_failed hv] at h; cases h
  | none =>
      cases hr : runNodes 0 p.nodes c with
      | error ec =>
          obtain ⟨e, c₁⟩ := ec
          rw [run_nodes_error hv hr] at h
          cases h
      | ok c₁ =>
          cases hc : collectOutputs c₁ (freeOutputs p.nodes) with
          | error nm =>
              rw [run_nodes_ok_collect_error hv hr hc] at h
              cases h
          | ok res' =>
              rw [run_nodes_ok_collect_ok hv hr hc] at h
              obtain ⟨rfl, rfl⟩ : res' = res ∧ c₁ = c' := by
                cases h
                exact ⟨rfl, rfl⟩
              exact ⟨rfl, hc⟩

theorem runNodes_frame :
    ∀ (l : List Node) (i : Nat) (c c' : Catalog), runNodes i l c = .ok c' →
      (∀ name, producedBy l name = false → c'.get name = c.get name) ∧
      (∀ name, producedBy l name = true → (c'.get name).isSome = true) := by
  intro l
  induction l with
  | nil =>
      intro i c c' h
      obtain rfl : c = c' := by simpa [runNodes_nil] using h
      constructor
      · intro name _
        rfl
      · intro name hp
        simp [producedBy] at hp
  | cons n rest ih =>
      intro i c c' h
      cases hi : n.invoke c with
      | error err => rw [runNodes_cons_error i rest hi] at h; cases h
      | ok outs =>
          rw [runNodes_cons_ok i rest hi] at h
          have ihh := ih (i + 1) (c.setMany outs) c' h
          have hkeys := invoke_ok_keys n c outs hi
          constructor
          · intro name hnp
            rw [producedBy_cons, Bool.or_eq_false_iff] at hnp
            have hnot : name ∉ outs.map Prod.fst := by
              rw [hkeys]
              simpa using hnp.1
            rw [ihh.1 name hnp.2, Catalog.get_setMany_not_mem outs c name hnot]
          · intro name hp
            rw [producedBy_cons, Bool.or_eq_true] at hp
            by_cases hr : producedBy rest name = true
            · exact ihh.2 name hr
            · have hmem : name ∈ outs.map Prod.fst := by
                rw [hkeys]
                rcases hp with h1 | h1
                · simpa using h1
                · exact absurd h1 hr
              rw [ihh.1 name (Bool.eq_false_iff.mpr hr)]
              exact Catalog.isSome_get_setMany_mem outs c name hmem

theorem runNodes_congr :
    ∀ (l : List Node) (i : Nat) (c₁ c₂ : Catalog),
      TopoSorted l →
      (∀ nm, consumedBy l nm = true → producedBy l nm = false → c₁.get nm = c₂.get nm) →
      (∃ e d₁ d₂, runNodes i l c₁ = .error (e, d₁) ∧ runNodes i l c₂ = .error (e, d₂)) ∨
      (∃ d₁ d₂, runNodes i l c₁ = .ok d₁ ∧ runNodes i l c₂ = .ok d₂ ∧
        ∀ nm, (c₁.get nm = c₂.get nm ∨ producedBy l nm = true) → d₁.get nm = d₂.get nm) := by
  intro l
  induction l with
  | nil =>
      intro i c₁ c₂ _ _
      right
      refine ⟨c₁, c₂, rfl, rfl, ?_⟩
      intro nm h
      rcases h with h | h
      · exact h
      · simp [producedBy] at h
  | cons n rest ih =>
      intro i c₁ c₂ hts hagree
      have hnoprod : ∀ nm ∈ n.inputs, producedBy (n :: rest) nm = false := by
        intro nm hnm
        rw [Bool.eq_false_iff]
        intro hcontra
        obtain ⟨m, hm, hmo⟩ := (producedBy_iff _ _).mp hcontra
        have hdep : NodeDep m n := ⟨nm, hmo, hnm⟩
        rcases List.mem_cons.mp hm with rfl | hm'
        · exact hts.2 m (List.mem_cons_self _ _) hdep
        · exact (List.pairwise_cons.mp hts.1).1 m hm' hdep
      have hninputs : ∀ nm ∈ n.inputs, c₁.get nm = c₂.get nm := by
        intro nm hnm
        refine hagree nm ?_ (hnoprod nm hnm)
        exact (consumedBy_iff _ _).mpr ⟨n, List.mem_cons_self _ _, hnm⟩
      have hinv : n.invoke c₁ = n.invoke c₂ := invoke_congr n c₁ c₂ hninputs
      cases hi : n.invoke c₁ with
      | error err =>
          left
          refine ⟨nodeErrorToRun i err, c₁, c₂, runNodes_cons_error i rest hi, ?_⟩
          exact runNodes_cons_error i rest (hinv ▸ hi)
      | ok outs =>
          have hi₂ : n.invoke c₂ = .ok outs := hinv ▸ hi
          have hkeys := invoke_ok_keys n c₁ outs hi
          have hts' : TopoSorted rest :=
            ⟨(List.pairwise_cons.mp hts.1).2, fun m hm => hts.2 m (List.mem_cons_of_mem _ hm)⟩
          have hagree' : ∀ nm, consumedBy rest nm = true → producedBy rest nm = false →
              (c₁.setMany outs).get nm = (c₂.setMany outs).get nm := by
            intro nm hc hp
            by_cases hmem : nm ∈ outs.map Prod.fst
            · exact Catalog.get_setMany_congr outs c₁ c₂ nm hmem
            · rw [Catalog.get_setMany_not_mem outs c₁ nm hmem,
                Catalog.get_setMany_not_mem outs c₂ nm hmem]
              apply hagree nm
              · rw [consumedBy_cons, hc, Bool.or_true]
              · rw [producedBy_cons, hp, Bool.or_false, Bool.eq_false_iff]
                intro hcontra
                refine hmem ?_
                rw [hkeys]
                simpa using hcontra
          rcases ih (i + 1) (c₁.setMany outs) (c₂.setMany outs) hts' hagree' with
            ⟨e, d₁, d₂, h₁, h₂⟩ | ⟨d₁, d₂, h₁, h₂, hprop⟩
          · left
            refine ⟨e, d₁, d₂, ?_, ?_⟩
            · rw [runNodes_cons_ok i rest hi]; exact h₁
            · rw [runNodes_cons_ok i rest hi₂]; exact h₂
          · right
            refine ⟨d₁, d₂, ?_, ?_, ?_⟩
            · rw [runNodes_cons_ok i rest hi]; exact h₁
            · rw [runNodes_cons_ok i rest hi₂]; exact h₂
            · intro nm hnm
              apply hprop
              rcases hnm with hagreed | hprod
              · by_cases hmem : nm ∈ outs.map Prod.fst
                · exact Or.inl (Catalog.get_setMany_congr outs c₁ c₂ nm hmem)
                · left
                  rw [Catalog.get_setMany_not_mem outs c₁ nm hmem,
                    Catalog.get_setMany_not_mem outs c₂ nm hmem]
                  exact hagreed
              · rw [producedBy_cons, Bool.or_eq_true] at hprod
                rcases hprod with h1 | h1
                · refine Or.inl (Catalog.get_setMany_congr outs c₁ c₂ nm ?_)
                  rw [hkeys]
                  simpa using h1
                · exact Or.inr h1

theorem hasDuplicateProducer_eq_false_iff :
    ∀ ns : List Node, hasDuplicateProducer ns = false ↔
      ns.Pairwise (fun a b => ∀ o ∈ a.outputs, o ∉ b.outputs) := by
  intro ns
  induction ns with
  | nil => simp [hasDuplicateProducer]
  | cons n rest ih =>
      rw [show hasDuplicateProducer (n :: rest) =
        (rest.any (fun m => n.outputs.any (fun o => m.outputs.contains o))
          || hasDuplicateProducer rest) from rfl]
      rw [Bool.or_eq_false_iff, List.pairwise_cons, ih]
      constructor
      · rintro ⟨h1, h2⟩
        refine ⟨?_, h2⟩
        intro m hm o ho hcontra
        have : rest.any (fun m => n.outputs.any (fun o => m.outputs.contains o)) = true := by
          rw [List.any_eq_true]
          exact ⟨m, hm, by rw [List.any_eq_true]; exact ⟨o, ho, by simpa using hcontra⟩⟩
        rw [h1] at this
        cases this
      · rintro ⟨h1, h2⟩
        refine ⟨?_, h2⟩
        rw [Bool.eq_false_iff]
        intro hcontra
        rw [List.any_eq_true] at hcontra
        obtain ⟨m, hm, hany⟩ := hcontra
        rw [List.any_eq_true] at hany
        obtain ⟨o, ho, hc⟩ := hany
        exact h1 m hm o ho (by simpa using hc)

/-! ## Claim theorems -/

/-- C1: for the tutorial pipeline of `greeting` (no inputs, output
"greeting_words", returning "Hello") and `introduce` (input "greeting_words",
output "message", appending ", AIMedic!"), run against a Catalog with no
pre-seeded values, construction succeeds and the run returns exactly the
mapping from "message" to "Hello, AIMedic!". -/
theorem claim_c1_scenarioA :
    pipeline [greeting_node, introducing_node] =
      Except.ok ⟨[greeting_node, introducing_node]⟩ ∧
    SequentialRunner.run ⟨[greeting_node, introducing_node]⟩ data_catalog =
      RunOutcome.succeeded [("message", "Hello, AIMedic!")]
        ⟨[("greeting_words", some "Hello"), ("message", some "Hello, AIMedic!")]⟩ ∧
    SequentialRunner.run ⟨[greeting_node, introducing_node]⟩ ⟨[]⟩ =
      RunOutcome.succeeded [("message", "Hello, AIMedic!")]
        ⟨[("greeting_words", some "Hello"), ("message", some "Hello, AIMedic!")]⟩ :=
  ⟨rfl, rfl, rfl⟩

/-- C2: for every node collection whose induced dependency graph is acyclic and
in which no output name is declared by two distinct nodes, pipeline construction
succeeds — in whatever order the nodes are passed — and the resulting execution
order contains exactly the given nodes and places every producer strictly before
every consumer of any of its output names. -/
theorem claim_c2_construction_topological (ns : List Node)
    (hdup : ns.Pairwise (fun a b => ∀ o ∈ a.outputs, o ∉ b.outputs))
    (hacy : Acyclic ns) :
    ∃ p, pipeline ns = .ok p ∧ p.nodes.Perm ns ∧
      ∀ i j : Fin p.nodes.length,
        NodeDep (p.nodes.get i) (p.nodes.get j) → (i : Nat) < (j : Nat) := by
  have hdupb : hasDuplicateProducer ns = false :=
    (hasDuplicateProducer_eq_false_iff ns).mpr hdup
  obtain ⟨ord, hord⟩ := Option.isSome_iff_exists.mp (topoSort_isSome_of_acyclic ns hacy)
  have hts := topoGo_sorted _ _ _ hord
  refine ⟨⟨ord⟩, ?_, topoGo_perm _ _ _ hord, ?_⟩
  · simp [pipeline, hdupb, hord]
  · intro i j hdep
    rcases Nat.lt_trichotomy (i : Nat) (j : Nat) with h | h | h
    · exact h
    · exfalso
      have hij : i = j := Fin.ext h
      subst hij
      exact hts.2 (ord.get i) (List.get_mem ord i.1 i.2) hdep
    · exfalso
      exact List.pairwise_iff_get.mp hts.1 j i (Fin.lt_def.mpr h) hdep

/-- Witness for C2: the tutorial nodes passed in reversed order still construct,
with the producer `greeting_node` placed before the consumer `introducing_node`. -/
theorem claim_c2_witness :
    Acyclic [introducing_node, greeting_node] ∧
    ∃ p, pipeline [introducing_node, greeting_node] = .ok p ∧
      p.nodes.Perm [introducing_node, greeting_node] ∧
      ∀ i j : Fin p.nodes.length,
        NodeDep (p.nodes.get i) (p.nodes.get j) → (i : Nat) < (j : Nat) := by
  have hacy : Acyclic [introducing_node, greeting_node] := by
    apply acyclic_of_rank _ (fun n => n.inputs.length)
    intro m n hm hn hdep
    rw [nodeDep_iff_any] at hdep
    simp only [List.mem_cons, List.not_mem_nil, or_false] at hm hn
    rcases hm with rfl | rfl <;> rcases hn with rfl | rfl <;> revert hdep <;> decide
  exact ⟨hacy, claim_c2_construction_topological _ (by decide) hacy⟩

/-- C3: whenever a run completes all nodes successfully, the key list of the
returned mapping is exactly the pipeline's free output names — names produced
and also consumed inside the pipeline do not appear. -/
theorem claim_c3_result_keys (p : Pipeline) (c : Catalog)
    (res : List (String × Value)) (c' : Catalog)
    (h : SequentialRunner.run p c = .succeeded res c') :
    res.map Prod.fst = freeOutputs p.nodes :=
  collectOutputs_ok_keys c' (freeOutputs p.nodes) res (run_succeeded_inv h).2

/-- Witness for C3: in the tutorial run the result keys are exactly
["message"]; the intermediate "greeting_words" does not appear. -/
theorem claim_c3_witness :
    SequentialRunner.run ⟨[greeting_node, introducing_node]⟩ data_catalog =
      RunOutcome.succeeded [("message", "Hello, AIMedic!")]
        ⟨[("greeting_words", some "Hello"), ("message", some "Hello, AIMedic!")]⟩ ∧
    ([(("message" : String), ("Hello, AIMedic!" : Value))].map Prod.fst =
      freeOutputs [greeting_node, introducing_node]) :=
  ⟨rfl, claim_c3_result_keys ⟨[greeting_node, introducing_node]⟩ data_catalog _ _ rfl⟩

/-- C4: if some free input of the pipeline has no loadable value in the
catalog, the run fails with `MissingInputError` naming such a free input and
returns the catalog exactly as it was — nothing is created or mutated. -/
theorem claim_c4_missing_input (p : Pipeline) (c : Catalog)
    (h : ∃ i ∈ freeInputs p.nodes, c.existsName i = false) :
    ∃ nm, nm ∈ freeInputs p.nodes ∧ c.existsName nm = false ∧
      SequentialRunner.run p c = .failed (.missingInputError nm) c := by
  have hsome : ((freeInputs p.nodes).find? (fun i => !c.existsName i)).isSome := by
    rw [List.find?_isSome]
    obtain ⟨i, hi, hex⟩ := h
    exact ⟨i, hi, by rw [hex]; rfl⟩
  obtain ⟨nm, hnm⟩ := Option.isSome_iff_exists.mp hsome
  have hmem := List.mem_of_find?_eq_some hnm
  have hp := List.find?_some hnm
  exact ⟨nm, hmem, by simpa using hp, run_validation_failed hnm⟩

/-- Witness for C4 (Scenario E): a pipeline requiring free input "z" run
against a catalog lacking "z" fails with `MissingInputError` and leaves the
catalog untouched. -/
theorem claim_c4_witness :
    (∃ i ∈ freeInputs [need_z_node],
      Catalog.existsName ⟨[("other", some "1")]⟩ i = false) ∧
    ∃ nm, nm ∈ freeInputs [need_z_node] ∧
      Catalog.existsName ⟨[("other", some "1")]⟩ nm = false ∧
      SequentialRunner.run ⟨[need_z_node]⟩ ⟨[("other", some "1")]⟩ =
        .failed (.missingInputError nm) ⟨[("other", some "1")]⟩ := by
  have h : ∃ i ∈ freeInputs [need_z_node],
      Catalog.existsName ⟨[("other", some "1")]⟩ i = false := by decide
  exact ⟨h, claim_c4_missing_input ⟨[need_z_node]⟩ ⟨[("other", some "1")]⟩ h⟩

/-- C5: when the nodes before position `pre.length` all succeed and the node at
that position raises, the run fails with a `PipelineExecutionError` wrapping
that node's index and the underlying error; no later node executes and the
catalog keeps exactly the outputs written by the earlier nodes. -/
theorem claim_c5_failing_node (pre post : List Node) (bad : Node)
    (c c₁ : Catalog) (e : String)
    (hval : ∀ i ∈ freeInputs (pre ++ bad :: post), Catalog.existsName c i = true)
    (hpre : runNodes 0 pre c = .ok c₁)
    (hbad : bad.invoke c₁ = .error (.funcRaised e)) :
    SequentialRunner.run ⟨pre ++ bad :: post⟩ c =
      .failed (.pipelineExecutionError pre.length e) c₁ := by
  have hv : (freeInputs (pre ++ bad :: post)).find? (fun i => !c.existsName i) = none := by
    rw [List.find?_eq_none]
    intro x hx
    simp [hval x hx]
  have hrun : runNodes 0 (pre ++ bad :: post) c =
      .error (.pipelineExecutionError pre.length e, c₁) := by
    rw [runNodes_append_ok _ pre 0 c c₁ hpre, Nat.zero_add]
    exact runNodes_cons_error pre.length post hbad
  exact run_nodes_error hv hrun

/-- Witness for C5: after `greeting_node` succeeds, `crashing_node` (index 1)
raises "boom"; the run fails with the wrapped error, the downstream node never
executes, and the catalog retains the "greeting_words" output. -/
theorem claim_c5_witness :
    (∀ i ∈ freeInputs ([greeting_node] ++ crashing_node :: [after_crash_node]),
      Catalog.existsName data_catalog i = true) ∧
    runNodes 0 [greeting_node] data_catalog =
      .ok ⟨[("greeting_words", some "Hello")]⟩ ∧
    SequentialRunner.run ⟨[greeting_node] ++ crashing_node :: [after_crash_node]⟩
        data_catalog =
      .failed (.pipelineExecutionError 1 "boom") ⟨[("greeting_words", some "Hello")]⟩ := by
  refine ⟨by decide, rfl, ?_⟩
  exact claim_c5_failing_node [greeting_node] [after_crash_node] crashing_node
    data_catalog ⟨[("greeting_words", some "Hello")]⟩ "boom" (by decide) rfl rfl

/-- Counterexample to C6 as stated: the collection `[loop_node, loop_node]` has
a dependency cycle (each copy consumes its own output "a"), yet construction
fails with `AmbiguousOutputError` — not `CyclicPipelineError` — because both
copies declare the output "a" and the duplicate-producer check runs first
(spec section 4.2, step 2 before step 3). -/
theorem claim_c6_counterexample :
    (∃ n, Relation.TransGen (depIn [loop_node, loop_node]) n n) ∧
    pipeline [loop_node, loop_node] = .error .ambiguousOutputError ∧
    pipeline [loop_node, loop_node] ≠ .error .cyclicPipelineError := by
  refine ⟨⟨loop_node, Relation.TransGen.single
    ⟨List.mem_cons_self _ _, List.mem_cons_self _ _, "a", by decide, by decide⟩⟩, rfl, ?_⟩
  intro hcontra
  have h3 := (rfl :
    pipeline [loop_node, loop_node] = Except.error PipelineError.ambiguousOutputError).symm.trans
    hcontra
  injection h3 with h4
  cases h4

/-- C6 (amended): for every node collection whose induced dependency graph
contains a cycle and in which no output name is declared by two distinct nodes,
pipeline construction fails with `CyclicPipelineError` and no Pipeline value is
produced. -/
theorem claim_c6_cyclic_error (ns : List Node)
    (hdup : ns.Pairwise (fun a b => ∀ o ∈ a.outputs, o ∉ b.outputs))
    (hcyc : ∃ n, Relation.TransGen (depIn ns) n n) :
    pipeline ns = .error .cyclicPipelineError := by
  have hdupb : hasDuplicateProducer ns = false :=
    (hasDuplicateProducer_eq_false_iff ns).mpr hdup
  cases hts : topoSort ns with
  | some ord =>
      exfalso
      obtain ⟨n, hn⟩ := hcyc
      exact acyclic_of_topoSort_eq_some hts n hn
  | none => simp [pipeline, hdupb, hts]

/-- Witness for C6 (Scenario D): the direct two-cycle of `node_x` (consumes "b",
produces "a") and `node_y` (consumes "a", produces "b") is rejected with
`CyclicPipelineError`. -/
theorem claim_c6_witness :
    (∃ n, Relation.TransGen (depIn [node_x, node_y]) n n) ∧
    pipeline [node_x, node_y] = .error .cyclicPipelineError := by
  have e₁ : depIn [node_x, node_y] node_x node_y :=
    ⟨List.mem_cons_self _ _, List.mem_cons_of_mem _ (List.mem_cons_self _ _),
      "a", by decide, by decide⟩
  have e₂ : depIn [node_x, node_y] node_y node_x :=
    ⟨List.mem_cons_of_mem _ (List.mem_cons_self _ _), List.mem_cons_self _ _,
      "b", by decide, by decide⟩
  have hcyc : ∃ n, Relation.TransGen (depIn [node_x, node_y]) n n :=
    ⟨node_x, (Relation.TransGen.single e₁).tail e₂⟩
  exact ⟨hcyc, claim_c6_cyclic_error _ (by decide) hcyc⟩

/-- C7: whenever two distinct nodes of the collection declare the same output
name, pipeline construction fails with `AmbiguousOutputError`, before any run. -/
theorem claim_c7_ambiguous (ns : List Node)
    (hdup : ¬ ns.Pairwise (fun a b => ∀ o ∈ a.outputs, o ∉ b.outputs)) :
    pipeline ns = .error .ambiguousOutputError := by
  have hb : hasDuplicateProducer ns = true := by
    cases h : hasDuplicateProducer ns with
    | true => rfl
    | false => exact absurd ((hasDuplicateProducer_eq_false_iff ns).mp h) hdup
  simp [pipeline, hb]

/-- Witness for C7 (Scenario C): two nodes both declaring output "a" are
rejected with `AmbiguousOutputError`. -/
theorem claim_c7_witness :
    (¬ List.Pairwise (fun a b => ∀ o ∈ a.outputs, o ∉ b.outputs)
      [dup_node_one, dup_node_two]) ∧
    pipeline [dup_node_one, dup_node_two] = .error .ambiguousOutputError := by
  have h : ¬ List.Pairwise (fun a b => ∀ o ∈ a.outputs, o ∉ b.outputs)
      [dup_node_one, dup_node_two] := by decide
  exact ⟨h, claim_c7_ambiguous _ h⟩

/-- C8: running a constructed pipeline against two catalogs holding identical
values for its free inputs yields identical observable results (the runner
keeps no state of its own; only the free-input values matter). -/
theorem claim_c8_deterministic (ns : List Node) (p : Pipeline) (c₁ c₂ : Catalog)
    (hp : pipeline ns = .ok p)
    (hseed : ∀ nm ∈ freeInputs p.nodes, c₁.get nm = c₂.get nm) :
    runResult (SequentialRunner.run p c₁) = runResult (SequentialRunner.run p c₂) := by
  have hts : TopoSorted p.nodes := by
    unfold pipeline at hp
    cases hd : hasDuplicateProducer ns with
    | true => rw [hd] at hp; simp at hp
    | false =>
        rw [hd] at hp
        simp only [Bool.false_eq_true, if_false] at hp
        cases hts' : topoSort ns with
        | none => rw [hts'] at hp; cases hp
        | some ord =>
            rw [hts'] at hp
            obtain rfl : Pipeline.mk ord = p := by
              cases hp
              rfl
            exact topoGo_sorted _ _ _ hts'
  have hval : (freeInputs p.nodes).find? (fun i => !c₁.existsName i) =
      (freeInputs p.nodes).find? (fun i => !c₂.existsName i) := by
    apply find?_congr_pred
    intro x hx
    unfold Catalog.existsName
    rw [hseed x hx]
  cases hv : (freeInputs p.nodes).find? (fun i => !c₁.existsName i) with
  | some nm =>
      have hv₂ := hval.symm.trans hv
      rw [run_validation_failed hv, run_validation_failed hv₂]
      rfl
  | none =>
      have hv₂ := hval.symm.trans hv
      have hagree : ∀ nm, consumedBy p.nodes nm = true → producedBy p.nodes nm = false →
          c₁.get nm = c₂.get nm := by
        intro nm hc hpr
        exact hseed nm ((mem_freeInputs_iff _ _).mpr ⟨hc, hpr⟩)
      rcases runNodes_congr p.nodes 0 c₁ c₂ hts hagree with
        ⟨e, d₁, d₂, h₁, h₂⟩ | ⟨d₁, d₂, h₁, h₂, hprop⟩
      · rw [run_nodes_error hv h₁, run_nodes_error hv₂ h₂]
        rfl
      · have hcoll : collectOutputs d₁ (freeOutputs p.nodes) =
            collectOutputs d₂ (freeOutputs p.nodes) := by
          apply collectOutputs_congr
          intro nm hnm
          exact hprop nm (Or.inr ((mem_freeOutputs_iff _ _).mp hnm).1)
        cases hc : collectOutputs d₁ (freeOutputs p.nodes) with
        | error nm =>
            rw [run_nodes_ok_collect_error hv h₁ hc,
              run_nodes_ok_collect_error hv₂ h₂ (hcoll.symm.trans hc)]
            rfl
        | ok res =>
            rw [run_nodes_ok_collect_ok hv h₁ hc,
              run_nodes_ok_collect_ok hv₂ h₂ (hcoll.symm.trans hc)]
            rfl

/-- Witness for C8 (Scenario B shape): the one-node pipeline consuming the free
input "greeting_words" gives the same result over two catalogs that agree on
that input but differ elsewhere. -/
theorem claim_c8_witness :
    pipeline [introducing_node] = Except.ok ⟨[introducing_node]⟩ ∧
    (∀ nm ∈ freeInputs [introducing_node],
      Catalog.get ⟨[("greeting_words", some "Hi"), ("extra", some "1")]⟩ nm =
        Catalog.get ⟨[("greeting_words", some "Hi")]⟩ nm) ∧
    runResult (SequentialRunner.run ⟨[introducing_node]⟩
        ⟨[("greeting_words", some "Hi"), ("extra", some "1")]⟩) =
      runResult (SequentialRunner.run ⟨[introducing_node]⟩
        ⟨[("greeting_words", some "Hi")]⟩) := by
  refine ⟨rfl, by decide, ?_⟩
  exact claim_c8_deterministic [introducing_node] ⟨[introducing_node]⟩
    ⟨[("greeting_words", some "Hi"), ("extra", some "1")]⟩
    ⟨[("greeting_words", some "Hi")]⟩ rfl (by decide)

/-- C9: the node factory accepts `None` as declaring zero inputs and a bare
string as a one-element name list, for inputs and outputs alike; the nodes so
built are equal to the ones declared with list-form names, hence behave
identically. -/
theorem claim_c9_namespec_normalisation (f : List Value → Except String (List Value))
    (s : String) (ins outs : NameSpec) :
    node f (NameSpec.one s) outs = node f (NameSpec.many [s]) outs ∧
    node f NameSpec.null outs = node f (NameSpec.many []) outs ∧
    node f ins (NameSpec.one s) = node f ins (NameSpec.many [s]) ∧
    (node f (NameSpec.one s) outs).inputs = [s] ∧
    (node f NameSpec.null outs).inputs = [] :=
  ⟨rfl, rfl, rfl, rfl, rfl⟩

/-- C10: a successful run writes every executed node's declared outputs into
the caller's catalog (every produced name is loadable afterwards) and leaves
every name not produced by any node of the pipeline exactly as it was. -/
theorem claim_c10_run_frame (p : Pipeline) (c : Catalog)
    (res : List (String × Value)) (c' : Catalog)
    (h : SequentialRunner.run p c = .succeeded res c') :
    (∀ name, producedBy p.nodes name = false → c'.get name = c.get name) ∧
    (∀ name, producedBy p.nodes name = true → (c'.get name).isSome = true) :=
  runNodes_frame p.nodes 0 c c' (run_succeeded_inv h).1

/-- Witness for C10: after the tutorial run over a catalog with an extra seeded
entry "keep", that entry is unchanged, while the intermediate "greeting_words"
was written, holds "Hello", and remains loadable. -/
theorem claim_c10_witness :
    SequentialRunner.run ⟨[greeting_node, introducing_node]⟩ keep_catalog =
      RunOutcome.succeeded [("message", "Hello, AIMedic!")]
        ⟨[("greeting_words", some "Hello"), ("keep", some "42"),
          ("message", some "Hello, AIMedic!")]⟩ ∧
    Catalog.get ⟨[("greeting_words", some "Hello"), ("keep", some "42"),
        ("message", some "Hello, AIMedic!")]⟩ "keep" = keep_catalog.get "keep" ∧
    (Catalog.get ⟨[("greeting_words", some "Hello"), ("keep", some "42"),
        ("message", some "Hello, AIMedic!")]⟩ "greeting_words").isSome = true ∧
    Catalog.get ⟨[("greeting_words", some "Hello"), ("keep", some "42"),
        ("message", some "Hello, AIMedic!")]⟩ "greeting_words" = some "Hello" := by
  refine ⟨rfl, ?_, ?_, rfl⟩
  · exact (claim_c10_run_frame ⟨[greeting_node, introducing_node]⟩ keep_catalog
      _ _ rfl).1 "keep" (by decide)
  · exact (claim_c10_run_frame ⟨[greeting_node, introducing_node]⟩ keep_catalog
      _ _ rfl).2 "greeting_words" (by decide)
